import Mathlib

/-!
Verification of the `lars` visitor library (TheLartians/Visitor).

The development shallowly embeds `src/include/lars/visitor.h`:

* type identities (`lars::TypeIndex`) become an abstract key type `K` with
  decidable equality; the concrete hierarchy of `src/tests/visitor.cpp`
  (`A`, `B`, `C`, `D`, `E`, `F`, `X`, `BX`, `XB`, `CX`, `XC`) becomes the
  inductive `Ty`;
* a visitor object (`VisitorPrototype<..., Args...>`) is represented by the
  list of its declared capability keys; `getVisitorForWorker` is translated
  verbatim as a scan of that list;
* the `visit` overload family (visitor.h lines 116-153) becomes
  `visitPlain` / `visitPlainEmpty` / `visitRecursive` / `visitRecursiveEmpty`;
  a recursive handler invocation returning `false` stops the scan, exactly as
  in `if (!v->visit(...)) return false;`;
* an entity is its accept-time data: the key used for error reporting
  (`getNamedTypeIndex<V>`), its ancestor key list (`InheritanceList`), and the
  address of each ancestor subobject (`static_cast<T&>(*visitable)` is
  modelled by an address map `addr : K → Nat`);
* exceptions become `Except` values carrying the key stored in
  `IncompatibleVisitorException`.
-/

deriving instance DecidableEq for Except

/-- Type keys of the test hierarchy of `src/tests/visitor.cpp`. -/
inductive Ty where
  | A | B | C | D | E | F | X | BX | XB | CX | XC
deriving DecidableEq, Repr, Fintype

/-- IncompatibleVisitorException (visitor.h lines 83-97): carries the
`NamedTypeIndex` it was constructed with. -/
inductive VisitError (K : Type) where
  | incompatible (typeIndex : K)
deriving DecidableEq, Repr

/-- VisitorPrototype::getVisitorForWorker (visitor.h lines 39-47): scan the
declared capability types front to back; return the first declared type whose
index equals the probed index (the returned handler is the `Single<First>`
sub-object for that type), or nothing. -/
def getVisitorForWorker {K : Type} [DecidableEq K] (decl : List K) (idx : K) : Option K :=
  match decl with
  | [] => none
  | d :: rest => if idx = d then some d else getVisitorForWorker rest idx

/-- A recursive visitor object: its declared capability list and, for each
invoked key, the boolean its handler returns (`false` means stop, as in
`if (!v->visit(...)) return false;`). -/
structure RecVisitor (K : Type) where
  decl : List K
  ret : K → Bool

/-- Capability test: `visitor.asVisitorFor<T>()` is non-null iff the lookup
worker finds `T` among the declared capabilities. -/
def hasCapability {K : Type} [DecidableEq K] (decl : List K) (k : K) : Bool :=
  (getVisitorForWorker decl k).isSome

/-- Capability test of a recursive visitor object. -/
def vhandles {K : Type} [DecidableEq K] (v : RecVisitor K) (k : K) : Bool :=
  hasCapability v.decl k

/-- Plain visit on a non-empty type list (visitor.h lines 116-128): invoke and
return at the first entry with a registered handler (the result records which
handler ran); recurse otherwise; throw IncompatibleVisitor naming the
visitable's static type when the list is exhausted. -/
def visitPlain {K : Type} [DecidableEq K] (selfKey : K) (decl : List K) :
    K → List K → Except (VisitError K) K
  | t, rest =>
    match getVisitorForWorker decl t with
    | some _ => .ok t
    | none =>
      match rest with
      | [] => .error (.incompatible selfKey)
      | r :: rs => visitPlain selfKey decl r rs

/-- Plain visit on the empty type list (visitor.h lines 130-132): always throws
IncompatibleVisitor naming the visitable's static type. -/
def visitPlainEmpty {K : Type} (selfKey : K) : Except (VisitError K) K :=
  .error (.incompatible selfKey)

/-- Recursive visit on a non-empty type list (visitor.h lines 134-149).
Returns the boolean the C++ function returns together with the keys whose
handlers were invoked, in invocation order: each handled entry is invoked; a
handler returning `false` stops the scan with result `false`; reaching the end
yields `true`. -/
def visitRecursive {K : Type} [DecidableEq K] (v : RecVisitor K) :
    K → List K → Bool × List K
  | t, rest =>
    if vhandles v t then
      if v.ret t then
        match rest with
        | [] => (true, [t])
        | r :: rs =>
          let p := visitRecursive v r rs
          (p.1, t :: p.2)
      else (false, [t])
    else
      match rest with
      | [] => (true, [])
      | r :: rs => visitRecursive v r rs

/-- Recursive visit on the empty type list (visitor.h lines 151-153): throws
IncompatibleVisitor. It is declared to return `void` while every recursive
`accept` returns `bool`, so any entity instantiating its `accept` with an
empty type list is ill-formed C++; the only compilable zero-ancestor entity is
`NonVisitable`, whose recursive `accept` bypasses `visit` (lines 163-164). -/
def visitRecursiveEmpty {K : Type} (selfKey : K) : Except (VisitError K) Unit :=
  .error (.incompatible selfKey)

/-- An entity as seen by the dispatch engine: the key reported in errors
(`getNamedTypeIndex<V>` for the accept class `V`), its ancestor key list
(empty exactly for `NonVisitable`), and the address of each ancestor
subobject. -/
structure Entity (K : Type) where
  selfKey : K
  ancestors : List K
  addr : K → Nat

/-- Plain accept (visitor.h lines 161-162 for `NonVisitable`, lines 176-182 /
203-209 / 230-236 / 257-263 / 287-293 / 323-329 for the listed entity kinds):
dispatch the entity's ancestor list against a plain visitor declared over
`decl`. -/
def acceptPlain {K : Type} [DecidableEq K] (e : Entity K) (decl : List K) :
    Except (VisitError K) K :=
  match e.ancestors with
  | [] => visitPlainEmpty e.selfKey
  | t :: rest => visitPlain e.selfKey decl t rest

/-- Recursive accept: `NonVisitable` returns `false` directly without calling
`visit` (visitor.h lines 163-164); every other (compilable) entity kind has a
non-empty list and runs the recursive visit algorithm. -/
def acceptRecursive {K : Type} [DecidableEq K] (e : Entity K) (v : RecVisitor K) :
    Bool × List K :=
  match e.ancestors with
  | [] => (false, [])
  | t :: rest => visitRecursive v t rest

/-- CastVisitor (visitor.h lines 357-360): a recursive visitor whose only
capability is the target type; its handler records the address and returns
`false` (stop). -/
def castVisitorOf {K : Type} (T : K) : RecVisitor K :=
  ⟨[T], fun _ => false⟩

/-- Pointer-returning visitor_cast (visitor.h lines 362-378): run the cast
visitor through recursive accept; the recorded result is the address of the
last invoked ancestor (the handler overwrites `result` on each invocation),
or null when no handler ran. -/
def visitorCastPtr {K : Type} [DecidableEq K] (e : Entity K) (T : K) : Option Nat :=
  ((acceptRecursive e (castVisitorOf T)).2.getLast?).map e.addr

/-- Reference-returning visitor_cast (visitor.h lines 380-389): unwrap the
pointer cast, or throw IncompatibleVisitor constructed from
`getNamedTypeIndex<T>` - the requested target type. -/
def visitorCastRef {K : Type} [DecidableEq K] (e : Entity K) (T : K) :
    Except (VisitError K) Nat :=
  match visitorCastPtr e T with
  | some a => .ok a
  | none => .error (.incompatible T)

/-!
Ancestor lists.

Modelled from the spec: `lars/inheritance_list.h` - the `InheritanceList`,
`OrderedType`, `Push` and `Merge` machinery that `visitor.h` builds ancestor
lists with - is not under `src/`. Spec §4.2 gives the base, single-parent and
join rules, states that a nested-join merge may reorder ancestors, and pins
the precise merge order empirically by §8 scenario 5 (the "FEDBA" oracle,
which `src/tests/visitor.cpp` lines 221-233 also asserts). The model below
keeps an inheritance-depth order with each type key (`OrderedType<T, O>`):
the base list is `[self at order 0]`; pushing a derived type gives it order
one above the list's maximum; merging concatenates the parents' lists in
declaration order, collapses duplicate keys onto their first occurrence
keeping the greatest order, and stably sorts by decreasing order. This
reproduces every ancestor-order oracle in `src/tests/visitor.cpp` (checked
below).
-/

/-- OrderedType of the modelled inheritance list: a type key together with its
inheritance-depth order. -/
structure OrderedTy (K : Type) where
  ty : K
  ord : Nat
deriving DecidableEq, Repr

/-- Key sequence of an inheritance list. -/
def keysOf {K : Type} (l : List (OrderedTy K)) : List K :=
  l.map OrderedTy.ty

/-- Modelled from the spec: `Visitable<T>::InheritanceList =
InheritanceList<OrderedType<T, 0>>` (visitor.h line 174). -/
def ilBase {K : Type} (k : K) : List (OrderedTy K) := [⟨k, 0⟩]

/-- Greatest order occurring in a list (0 when empty). -/
def maxOrd {K : Type} (l : List (OrderedTy K)) : Nat :=
  l.foldr (fun e m => max e.ord m) 0

/-- Modelled from the spec: `Push<T>` used by `DerivedVisitable` (visitor.h
line 201) - prepend the derived type one order above everything present. -/
def ilPush {K : Type} (k : K) (l : List (OrderedTy K)) : List (OrderedTy K) :=
  ⟨k, maxOrd l + 1⟩ :: l

/-- Raise the order of the entry holding the given key to at least the given
entry's order (first occurrence only; later duplicates are removed by
`collapseAncestors` before this situation can arise). -/
def bumpOrd {K : Type} [DecidableEq K] (e : OrderedTy K) :
    List (OrderedTy K) → List (OrderedTy K)
  | [] => []
  | x :: xs => if x.ty = e.ty then ⟨x.ty, max x.ord e.ord⟩ :: xs else x :: bumpOrd e xs

/-- Fold step of the duplicate collapse: append an unseen key, or keep its
first position and the greatest order when already present. -/
def addMerged {K : Type} [DecidableEq K] (acc : List (OrderedTy K)) (e : OrderedTy K) :
    List (OrderedTy K) :=
  if acc.any (fun x => x.ty = e.ty) then bumpOrd e acc else acc ++ [e]

/-- Collapse duplicate keys onto their first occurrence, keeping the greatest
order seen for each key. -/
def collapseAncestors {K : Type} [DecidableEq K] (l : List (OrderedTy K)) :
    List (OrderedTy K) :=
  l.foldl addMerged []

/-- Comparison used to lay out a merged inheritance list: higher inheritance
order first. -/
def ordGE {K : Type} (a b : OrderedTy K) : Prop := b.ord ≤ a.ord

instance {K : Type} : DecidableRel (ordGE (K := K)) :=
  fun a b => inferInstanceAs (Decidable (b.ord ≤ a.ord))

instance {K : Type} : IsTotal (OrderedTy K) ordGE :=
  ⟨fun a b => Nat.le_total b.ord a.ord⟩

instance {K : Type} : IsTrans (OrderedTy K) ordGE :=
  ⟨fun _ _ _ h1 h2 => Nat.le_trans h2 h1⟩

/-- Modelled from the spec: `InheritanceList<>::Merge<Bases::InheritanceList...>`
(visitor.h lines 228 and 255) - concatenate the parents' lists in declaration
order, collapse duplicates (first occurrence wins the position, the greatest
order wins the depth), and stably sort by decreasing order. -/
def ilMerge {K : Type} [DecidableEq K] (ls : List (List (OrderedTy K))) :
    List (OrderedTy K) :=
  (collapseAncestors ls.flatten).insertionSort ordGE

/-- A join entity kind as used by the test hierarchy:
`DerivedVisitable<T, JoinVisitable<Bases...>>` - merge the parents' lists and
push self on top. -/
def ilJoin {K : Type} [DecidableEq K] (self : K) (parents : List (List (OrderedTy K))) :
    List (OrderedTy K) :=
  ilPush self (ilMerge parents)

/-- struct A: Visitable<A> (tests line 15). -/
def ilA : List (OrderedTy Ty) := ilBase .A

/-- struct B: Visitable<B> (tests line 19). -/
def ilB : List (OrderedTy Ty) := ilBase .B

/-- struct X: Visitable<X> (tests line 12). -/
def ilX : List (OrderedTy Ty) := ilBase .X

/-- struct C: DerivedVisitable<C, A> (tests line 23). -/
def ilC : List (OrderedTy Ty) := ilPush .C ilA

/-- struct D: DerivedVisitable<D, VirtualJoinVisitable<A, B>> (tests line 27). -/
def ilD : List (OrderedTy Ty) := ilJoin .D [ilA, ilB]

/-- struct E: DerivedVisitable<E, VirtualJoinVisitable<D, A, X>> (tests line 31). -/
def ilE : List (OrderedTy Ty) := ilJoin .E [ilD, ilA, ilX]

/-- struct F: DerivedVisitable<F, VirtualJoinVisitable<B, E>> (tests line 35). -/
def ilF : List (OrderedTy Ty) := ilJoin .F [ilB, ilE]

/-- struct BX: DerivedVisitable<BX, JoinVisitable<B, X>> (tests line 39). -/
def ilBX : List (OrderedTy Ty) := ilJoin .BX [ilB, ilX]

/-- struct XB: DerivedVisitable<XB, JoinVisitable<X, B>> (tests line 42). -/
def ilXB : List (OrderedTy Ty) := ilJoin .XB [ilX, ilB]

/-- struct CX: JoinVisitable<C, X> (tests line 45) - a raw join, no self entry. -/
def ilCX : List (OrderedTy Ty) := ilMerge [ilC, ilX]

/-- struct XC: VirtualJoinVisitable<X, C> (tests line 48) - a raw join, no
self entry. -/
def ilXC : List (OrderedTy Ty) := ilMerge [ilX, ilC]

/-- Subobject address map used for the concrete entities (any injective-ish
assignment works; dispatch never inspects it). -/
def tyAddr : Ty → Nat
  | .A => 10 | .B => 11 | .C => 12 | .D => 13 | .E => 14 | .F => 15
  | .X => 16 | .BX => 17 | .XB => 18 | .CX => 19 | .XC => 20

/-- Build the entity of a test struct from its key and inheritance list. -/
def mkEnt (k : Ty) (il : List (OrderedTy Ty)) : Entity Ty :=
  ⟨k, keysOf il, tyAddr⟩

def entA : Entity Ty := mkEnt .A ilA
def entB : Entity Ty := mkEnt .B ilB
def entC : Entity Ty := mkEnt .C ilC
def entD : Entity Ty := mkEnt .D ilD
def entE : Entity Ty := mkEnt .E ilE
def entF : Entity Ty := mkEnt .F ilF
def entX : Entity Ty := mkEnt .X ilX
def entBX : Entity Ty := mkEnt .BX ilBX
def entXB : Entity Ty := mkEnt .XB ilXB
def entCX : Entity Ty := mkEnt .CX ilCX
def entXC : Entity Ty := mkEnt .XC ilXC

/-- The recursive visitor of the tests handling A-F (ABCDRecursiveVisitor,
tests lines 98-148), with handlers that never signal stop (they return the
continue signal on every invocation). -/
def visABCDEF : RecVisitor Ty :=
  ⟨[.A, .B, .C, .D, .E, .F], fun _ => true⟩

/-- The same capability set with handlers that always signal stop after the
first invocation. -/
def visABCDEFstop : RecVisitor Ty :=
  ⟨[.A, .B, .C, .D, .E, .F], fun _ => false⟩

/-- Sanity: the modelled inheritance lists have exactly the key orders the
oracles of `src/tests/visitor.cpp` pin down. -/
theorem ancestor_lists_oracle :
    keysOf ilA = [.A] ∧ keysOf ilB = [.B] ∧ keysOf ilX = [.X]
      ∧ keysOf ilC = [.C, .A]
      ∧ keysOf ilD = [.D, .A, .B]
      ∧ keysOf ilE = [.E, .D, .A, .B, .X]
      ∧ keysOf ilF = [.F, .E, .D, .B, .A, .X]
      ∧ keysOf ilBX = [.BX, .B, .X]
      ∧ keysOf ilXB = [.XB, .X, .B]
      ∧ keysOf ilCX = [.C, .A, .X]
      ∧ keysOf ilXC = [.C, .X, .A] := by decide

/-- Sanity: plain dispatch against the visitor declared over \x7bA, B, C\x7d
reproduces the ABCVisitor section oracles (tests lines 174-185). -/
theorem plain_dispatch_ABC_oracle :
    acceptPlain entA [.A, .B, .C] = .ok .A
      ∧ acceptPlain entB [.A, .B, .C] = .ok .B
      ∧ acceptPlain entC [.A, .B, .C] = .ok .C
      ∧ acceptPlain entX [.A, .B, .C] = .error (.incompatible .X)
      ∧ acceptPlain entD [.A, .B, .C] = .ok .A
      ∧ acceptPlain entE [.A, .B, .C] = .ok .A
      ∧ acceptPlain entF [.A, .B, .C] = .ok .B
      ∧ acceptPlain entBX [.A, .B, .C] = .ok .B
      ∧ acceptPlain entXB [.A, .B, .C] = .ok .B
      ∧ acceptPlain entCX [.A, .B, .C] = .ok .C
      ∧ acceptPlain entXC [.A, .B, .C] = .ok .C := by decide

/-- Sanity: plain dispatch against the visitor declared over \x7bA, B, X\x7d
reproduces the ABXVisitor section oracles (tests lines 191-201). -/
theorem plain_dispatch_ABX_oracle :
    acceptPlain entA [.A, .B, .X] = .ok .A
      ∧ acceptPlain entB [.A, .B, .X] = .ok .B
      ∧ acceptPlain entC [.A, .B, .X] = .ok .A
      ∧ acceptPlain entD [.A, .B, .X] = .ok .A
      ∧ acceptPlain entE [.A, .B, .X] = .ok .A
      ∧ acceptPlain entF [.A, .B, .X] = .ok .B
      ∧ acceptPlain entX [.A, .B, .X] = .ok .X
      ∧ acceptPlain entBX [.A, .B, .X] = .ok .B
      ∧ acceptPlain entXB [.A, .B, .X] = .ok .X
      ∧ acceptPlain entCX [.A, .B, .X] = .ok .A
      ∧ acceptPlain entXC [.A, .B, .X] = .ok .X := by decide

/-- Sanity: a full recursive scan (handlers never signal stop) visits exactly
the tag sequences of the getFullTypeName oracles (tests lines 222-232). -/
theorem recursive_scan_oracle :
    (acceptRecursive entA visABCDEF).2 = [.A]
      ∧ (acceptRecursive entB visABCDEF).2 = [.B]
      ∧ (acceptRecursive entC visABCDEF).2 = [.C, .A]
      ∧ (acceptRecursive entD visABCDEF).2 = [.D, .A, .B]
      ∧ (acceptRecursive entE visABCDEF).2 = [.E, .D, .A, .B]
      ∧ (acceptRecursive entF visABCDEF).2 = [.F, .E, .D, .B, .A]
      ∧ (acceptRecursive entX visABCDEF).2 = []
      ∧ (acceptRecursive entBX visABCDEF).2 = [.B]
      ∧ (acceptRecursive entXB visABCDEF).2 = [.B]
      ∧ (acceptRecursive entCX visABCDEF).2 = [.C, .A]
      ∧ (acceptRecursive entXC visABCDEF).2 = [.C, .A] := by decide

/-- Sanity: a one-shot recursive scan (handlers always signal stop) visits
exactly the single tags of the getTypeName oracles (tests lines 208-218). -/
theorem recursive_oneshot_oracle :
    (acceptRecursive entA visABCDEFstop).2 = [.A]
      ∧ (acceptRecursive entC visABCDEFstop).2 = [.C]
      ∧ (acceptRecursive entD visABCDEFstop).2 = [.D]
      ∧ (acceptRecursive entE visABCDEFstop).2 = [.E]
      ∧ (acceptRecursive entF visABCDEFstop).2 = [.F]
      ∧ (acceptRecursive entX visABCDEFstop).2 = []
      ∧ (acceptRecursive entBX visABCDEFstop).2 = [.B]
      ∧ (acceptRecursive entCX visABCDEFstop).2 = [.C] := by decide

/-!
Characterizations of the dispatch algorithms.
-/

/-- Capability lookup succeeds exactly on declared keys, regardless of their
position in the declaration. -/
theorem hasCapability_eq_mem {K : Type} [DecidableEq K] (decl : List K) (k : K) :
    hasCapability decl k = decide (k ∈ decl) := by
  induction decl with
  | nil => simp [hasCapability, getVisitorForWorker]
  | cons d rest ih =>
    by_cases h : k = d
    · simp [hasCapability, getVisitorForWorker, h]
    · simp only [hasCapability, getVisitorForWorker] at ih ⊢
      simp [h, ih]

/-- Plain dispatch picks the first ancestor entry with a declared capability,
or fails with IncompatibleVisitor naming the entity key. -/
theorem visitPlain_eq {K : Type} [DecidableEq K] (selfKey : K) (decl : List K)
    (t : K) (rest : List K) :
    visitPlain selfKey decl t rest =
      match (t :: rest).find? (hasCapability decl) with
      | some f => .ok f
      | none => .error (.incompatible selfKey) := by
  induction rest generalizing t with
  | nil =>
    cases h : getVisitorForWorker decl t with
    | none => simp [visitPlain, h, List.find?, hasCapability]
    | some d => simp [visitPlain, h, List.find?, hasCapability]
  | cons r rs ih =>
    cases h : getVisitorForWorker decl t with
    | none =>
      have hf : ¬ (hasCapability decl t = true) := by simp [hasCapability, h]
      rw [List.find?_cons_of_neg _ hf, ← ih r]
      simp [visitPlain, h]
    | some d =>
      have hf : hasCapability decl t = true := by simp [hasCapability, h]
      rw [List.find?_cons_of_pos _ hf]
      simp [visitPlain, h]

/-- Recursive dispatch, characterized: among the ancestor entries with a
declared capability (in list order), every handler up to and including the
first one that signals stop is invoked, and the returned boolean says whether
the scan ran off the end without a stop signal. -/
theorem visitRecursive_eq {K : Type} [DecidableEq K] (v : RecVisitor K)
    (t : K) (rest : List K) :
    visitRecursive v t rest =
      (((((t :: rest).filter (vhandles v)).dropWhile v.ret).isEmpty),
        ((t :: rest).filter (vhandles v)).takeWhile v.ret
          ++ ((((t :: rest).filter (vhandles v)).dropWhile v.ret).take 1)) := by
  induction rest generalizing t with
  | nil =>
    cases hh : vhandles v t with
    | false => simp [visitRecursive, hh]
    | true =>
      cases hr : v.ret t with
      | false => simp [visitRecursive, hh, hr]
      | true => simp [visitRecursive, hh, hr]
  | cons r rs ih =>
    cases hh : vhandles v t with
    | false =>
      rw [visitRecursive]
      simp only [hh]
      rw [ih r]
      simp [List.filter_cons, hh]
    | true =>
      cases hr : v.ret t with
      | false =>
        rw [visitRecursive]
        simp [List.filter_cons, hh, hr]
      | true =>
        rw [visitRecursive]
        simp only [hh, hr, if_true]
        rw [ih r]
        simp [List.filter_cons, hh, hr]

/-- The first list entry satisfying a predicate is the head of the filtered
list. -/
theorem find?_eq_head?_filter {α : Type} (p : α → Bool) (l : List α) :
    l.find? p = (l.filter p).head? := by
  induction l with
  | nil => simp
  | cons a rest ih =>
    cases h : p a with
    | false =>
      have hne : ¬ (p a = true) := by simp [h]
      rw [List.find?_cons_of_neg _ hne, List.filter_cons, if_neg hne]
      exact ih
    | true =>
      rw [List.find?_cons_of_pos _ h, List.filter_cons, if_pos h]
      simp

/-- A scan that never continues takes nothing. -/
theorem takeWhile_const_false {α : Type} (l : List α) :
    l.takeWhile (fun _ => false) = [] := by
  cases l with
  | nil => rfl
  | cons a rest => simp [List.takeWhile_cons]

/-- A scan that never continues drops nothing. -/
theorem dropWhile_const_false {α : Type} (l : List α) :
    l.dropWhile (fun _ => false) = l := by
  cases l with
  | nil => rfl
  | cons a rest => simp [List.dropWhile_cons]

/-- The last element of a one-element prefix is the head. -/
theorem getLast?_take_one {α : Type} (l : List α) :
    (l.take 1).getLast? = l.head? := by
  cases l with
  | nil => rfl
  | cons a rest => simp [List.take]

/-- Recursive accept on an entity with at least one ancestor, characterized:
among the ancestor entries with a declared capability (in list order), every
handler up to and including the first one that signals stop is invoked, and
the returned boolean says whether the scan ran off the end with no stop
signal. -/
theorem acceptRecursive_eq {K : Type} [DecidableEq K] (e : Entity K) (v : RecVisitor K)
    (hne : e.ancestors ≠ []) :
    acceptRecursive e v =
      (((e.ancestors.filter (vhandles v)).dropWhile v.ret).isEmpty,
        (e.ancestors.filter (vhandles v)).takeWhile v.ret
          ++ ((e.ancestors.filter (vhandles v)).dropWhile v.ret).take 1) := by
  cases hanc : e.ancestors with
  | nil => exact absurd hanc hne
  | cons t rest =>
    have h2 : acceptRecursive e v = visitRecursive v t rest := by
      unfold acceptRecursive
      rw [hanc]
    rw [h2, visitRecursive_eq]

/-- The cast visitor's capability test accepts exactly the target type. -/
theorem vhandles_castVisitorOf {K : Type} [DecidableEq K] (T : K) :
    vhandles (castVisitorOf T) = fun k => decide (k = T) := by
  funext k
  by_cases h : k = T
  · simp [vhandles, castVisitorOf, hasCapability, getVisitorForWorker, h]
  · simp [vhandles, castVisitorOf, hasCapability, getVisitorForWorker, h]

/-- The pointer cast returns the address of the first ancestor entry equal to
the target type, or null when no entry matches. -/
theorem visitorCastPtr_eq_find {K : Type} [DecidableEq K] (e : Entity K) (T : K) :
    visitorCastPtr e T = (e.ancestors.find? (fun k => decide (k = T))).map e.addr := by
  unfold visitorCastPtr
  cases hanc : e.ancestors with
  | nil => simp [acceptRecursive, hanc]
  | cons t rest =>
    have h2 : acceptRecursive e (castVisitorOf T) =
        visitRecursive (castVisitorOf T) t rest := by
      unfold acceptRecursive
      rw [hanc]
    rw [h2, visitRecursive_eq, ← hanc]
    have hret : (castVisitorOf T).ret = fun _ => false := rfl
    rw [hanc, vhandles_castVisitorOf, hret, takeWhile_const_false, dropWhile_const_false,
      List.nil_append, getLast?_take_one, ← find?_eq_head?_filter]

/-- Claim C1: for every entity and every plain visitor, when some entry of the
entity's ancestor list carries a registered capability, plain dispatch invokes
exactly the handler of the first such entry (front-to-back scan), and the
chosen handler does not change when the visitor declares the same capabilities
in any other order. -/
theorem plain_dispatch_first_registered {K : Type} [DecidableEq K]
    (e : Entity K) (decl decl2 : List K) (f : K)
    (hf : e.ancestors.find? (hasCapability decl) = some f)
    (hsame : ∀ k, k ∈ decl ↔ k ∈ decl2) :
    acceptPlain e decl = .ok f ∧ acceptPlain e decl2 = .ok f := by
  have hcap : hasCapability decl = hasCapability decl2 := by
    funext k
    rw [hasCapability_eq_mem, hasCapability_eq_mem]
    simp [hsame k]
  cases hanc : e.ancestors with
  | nil => rw [hanc] at hf; simp [List.find?] at hf
  | cons t rest =>
    rw [hanc] at hf
    have h1 : acceptPlain e decl = visitPlain e.selfKey decl t rest := by
      unfold acceptPlain
      rw [hanc]
    have h2 : acceptPlain e decl2 = visitPlain e.selfKey decl2 t rest := by
      unfold acceptPlain
      rw [hanc]
    constructor
    · rw [h1, visitPlain_eq, hf]
    · rw [h2, visitPlain_eq, ← hcap, hf]

/-- Claim C2: the entity F of the test hierarchy, scanned by a recursive
visitor handling A through F whose handlers never signal stop, invokes its
handlers in exactly the order F, E, D, B, A and reports a completed scan. -/
theorem recursive_scan_F_order :
    (acceptRecursive entF visABCDEF).2 = [.F, .E, .D, .B, .A]
      ∧ (acceptRecursive entF visABCDEF).1 = true := by decide

/-- Claim C4: for every entity none of whose ancestor entries is declared by
the visitor, plain dispatch fails with IncompatibleVisitor (naming the
entity), while recursive dispatch completes - it is a total function in this
model, mirroring that no compilable accept can reach the throwing empty-list
overload - invoking no handler at all. -/
theorem no_capability_dispatch {K : Type} [DecidableEq K]
    (e : Entity K) (decl : List K) (v : RecVisitor K)
    (hp : ∀ a ∈ e.ancestors, a ∉ decl)
    (hr : ∀ a ∈ e.ancestors, a ∉ v.decl) :
    acceptPlain e decl = .error (.incompatible e.selfKey)
      ∧ (acceptRecursive e v).2 = [] := by
  have hfilter : e.ancestors.filter (vhandles v) = [] := by
    rw [List.filter_eq_nil_iff]
    intro a ha
    simp [vhandles, hasCapability_eq_mem, hr a ha]
  constructor
  · cases hanc : e.ancestors with
    | nil => simp [acceptPlain, hanc, visitPlainEmpty]
    | cons t rest =>
      have hnone : (t :: rest).find? (hasCapability decl) = none := by
        rw [List.find?_eq_none]
        intro a ha
        have : a ∈ e.ancestors := by rw [hanc]; exact ha
        simp [hasCapability_eq_mem, hp a this]
      have h1 : acceptPlain e decl = visitPlain e.selfKey decl t rest := by
        unfold acceptPlain
        rw [hanc]
      rw [h1, visitPlain_eq, hnone]
  · cases hanc : e.ancestors with
    | nil => simp [acceptRecursive, hanc]
    | cons t rest =>
      rw [acceptRecursive_eq e v (by rw [hanc]; simp), hfilter]
      rfl

/-- Claim C5: the pointer cast yields null exactly when the reference cast
fails with IncompatibleVisitor (the pointer cast itself is a total function,
never an error), and whenever the pointer cast finds an address the reference
cast returns the same address. -/
theorem cast_ptr_ref_agree {K : Type} [DecidableEq K] (e : Entity K) (T : K) :
    (visitorCastPtr e T = none ↔ visitorCastRef e T = .error (.incompatible T))
      ∧ ∀ a, visitorCastPtr e T = some a → visitorCastRef e T = .ok a := by
  unfold visitorCastRef
  cases h : visitorCastPtr e T with
  | none => simp
  | some a => simp

/-- Claim C7: the zero-ancestor entity (`NonVisitable`): plain dispatch fails
with IncompatibleVisitor naming it against every plain visitor, and recursive
dispatch against every recursive visitor completes without error, invoking no
handler (it returns `false` directly). -/
theorem empty_entity_dispatch {K : Type} [DecidableEq K]
    (n : K) (ad : K → Nat) (decl : List K) (v : RecVisitor K) :
    acceptPlain ⟨n, [], ad⟩ decl = .error (.incompatible n)
      ∧ acceptRecursive ⟨n, [], ad⟩ v = (false, []) :=
  ⟨rfl, rfl⟩

/-- Claim C8: in recursive dispatch, once an invoked handler signals stop, no
handler of any later ancestor entry runs: writing the ancestor list as a
prefix (in which no handled entry stops), the stopping entry, and a tail, the
invocation trace is exactly the handled prefix followed by the stopping entry,
nothing of the tail; and the one-shot cast visitor records the address of the
first ancestor entry matching its target, ending the scan there. -/
theorem recursive_stop_halts_scan {K : Type} [DecidableEq K]
    (e : Entity K) (v : RecVisitor K) (l1 l2 : List K) (s : K)
    (hanc : e.ancestors = l1 ++ s :: l2)
    (hs : vhandles v s = true) (hstop : v.ret s = false)
    (hpre : ∀ x ∈ l1, vhandles v x = true → v.ret x = true) :
    acceptRecursive e v = (false, l1.filter (vhandles v) ++ [s])
      ∧ ∀ T, visitorCastPtr e T = (e.ancestors.find? (fun k => decide (k = T))).map e.addr := by
  refine ⟨?_, fun T => visitorCastPtr_eq_find e T⟩
  have hne : e.ancestors ≠ [] := by rw [hanc]; simp
  rw [acceptRecursive_eq e v hne, hanc]
  have hsplit : (l1 ++ s :: l2).filter (vhandles v) =
      l1.filter (vhandles v) ++ s :: l2.filter (vhandles v) := by
    rw [List.filter_append, List.filter_cons, if_pos hs]
  have hallpre : ∀ x ∈ l1.filter (vhandles v), v.ret x = true := by
    intro x hx
    rw [List.mem_filter] at hx
    exact hpre x hx.1 hx.2
  rw [hsplit, List.takeWhile_append_of_pos hallpre, List.dropWhile_append_of_pos hallpre,
    List.takeWhile_cons_of_neg (by simp [hstop]), List.dropWhile_cons_of_neg (by simp [hstop])]
  simp

/-- Claim C9: for every entity with a non-empty ancestor list, recursive
dispatch returns `true` exactly when every invoked handler signalled continue
(the scan reached the end of the list), and `false` exactly when some invoked
handler signalled stop. -/
theorem recursive_bool_iff_stop {K : Type} [DecidableEq K]
    (e : Entity K) (v : RecVisitor K) (hne : e.ancestors ≠ []) :
    ((acceptRecursive e v).1 = true ↔ ∀ k ∈ (acceptRecursive e v).2, v.ret k = true)
      ∧ ((acceptRecursive e v).1 = false ↔ ∃ k ∈ (acceptRecursive e v).2, v.ret k = false) := by
  rw [acceptRecursive_eq e v hne]
  cases hdw : (e.ancestors.filter (vhandles v)).dropWhile v.ret with
  | nil =>
    simp only [List.isEmpty_nil, List.take_nil, List.append_nil]
    constructor
    · exact ⟨fun _ k hk => List.mem_takeWhile_imp hk, fun _ => trivial⟩
    · constructor
      · intro hcontr; simp at hcontr
      · rintro ⟨k, hk, hkret⟩
        have hkt := List.mem_takeWhile_imp hk
        rw [hkt] at hkret
        simp at hkret
  | cons st sts =>
    have hst : v.ret st = false := by
      have := List.head?_dropWhile_not v.ret (e.ancestors.filter (vhandles v))
      rw [hdw] at this
      simpa using this
    simp only [List.isEmpty_cons, List.take_succ_cons, List.take_zero]
    constructor
    · constructor
      · intro hcontr; simp at hcontr
      · intro hall
        have hmem : st ∈ (e.ancestors.filter (vhandles v)).takeWhile v.ret ++ [st] := by
          simp
        have := hall st hmem
        rw [this] at hst
        simp at hst
    · exact ⟨fun _ => ⟨st, by simp, hst⟩, fun _ => trivial⟩

/-- Claim C10 counterexample: the raw join CX (struct CX: JoinVisitable<C, X>,
tests line 45) has ancestor list [C, A, X] with no CX entry - JoinVisitable
merges its bases without pushing self (visitor.h line 228) - so pointer-casting
a CX object back to its own type scans C, A, X, never matches, and yields
null rather than the object's address. -/
theorem cast_roundtrip_raw_join_refuted :
    visitorCastPtr entCX entCX.selfKey = none
      ∧ entCX.selfKey ∉ entCX.ancestors := by decide

/-- Claim C10 (amended): an object whose ancestor list starts with its own
type key - as every Visitable and DerivedVisitable entity's does, though not
a raw JoinVisitable or VirtualJoinVisitable object's - seen through the
common dispatch base and pointer-cast back to that key, yields its own
address. -/
theorem cast_roundtrip_self {K : Type} [DecidableEq K] (e : Entity K)
    (h : e.ancestors.head? = some e.selfKey) :
    visitorCastPtr e e.selfKey = some (e.addr e.selfKey) := by
  rw [visitorCastPtr_eq_find]
  cases hanc : e.ancestors with
  | nil => rw [hanc] at h; simp at h
  | cons t rest =>
    rw [hanc] at h
    simp only [List.head?_cons, Option.some.injEq] at h
    rw [← h]
    simp [List.find?]

/-!
Structure of the merged ancestor lists (for claim C3).
-/

/-- Bumping an order never changes the key sequence. -/
theorem keysOf_bumpOrd {K : Type} [DecidableEq K] (e : OrderedTy K) (l : List (OrderedTy K)) :
    keysOf (bumpOrd e l) = keysOf l := by
  induction l with
  | nil => rfl
  | cons x xs ih =>
    by_cases h : x.ty = e.ty
    · simp [bumpOrd, h, keysOf]
    · unfold bumpOrd
      rw [if_neg h]
      simp only [keysOf, List.map_cons] at ih ⊢
      rw [ih]

/-- The merge fold's membership test agrees with key membership. -/
theorem any_ty_eq_mem {K : Type} [DecidableEq K] (l : List (OrderedTy K)) (k : K) :
    (l.any fun x => x.ty = k) = true ↔ k ∈ keysOf l := by
  simp [List.any_eq_true, keysOf, List.mem_map]

/-- Key sequence of one merge fold step. -/
theorem keysOf_addMerged {K : Type} [DecidableEq K] (acc : List (OrderedTy K)) (e : OrderedTy K) :
    keysOf (addMerged acc e) =
      if e.ty ∈ keysOf acc then keysOf acc else keysOf acc ++ [e.ty] := by
  unfold addMerged
  by_cases h : e.ty ∈ keysOf acc
  · rw [if_pos ((any_ty_eq_mem acc e.ty).mpr h), if_pos h, keysOf_bumpOrd]
  · rw [if_neg (fun hc => h ((any_ty_eq_mem acc e.ty).mp hc)), if_neg h]
    simp [keysOf]

/-- Keys collected by the merge fold: those already in the accumulator plus
those of the folded list. -/
theorem mem_keysOf_foldl_addMerged {K : Type} [DecidableEq K]
    (l : List (OrderedTy K)) (acc : List (OrderedTy K)) (k : K) :
    k ∈ keysOf (l.foldl addMerged acc) ↔ k ∈ keysOf acc ∨ k ∈ keysOf l := by
  induction l generalizing acc with
  | nil => simp [keysOf]
  | cons e es ih =>
    rw [List.foldl_cons, ih]
    have hstep : k ∈ keysOf (addMerged acc e) ↔ k ∈ keysOf acc ∨ k = e.ty := by
      rw [keysOf_addMerged]
      by_cases h : e.ty ∈ keysOf acc
      · rw [if_pos h]
        constructor
        · exact fun hk => Or.inl hk
        · rintro (hk | rfl)
          · exact hk
          · exact h
      · rw [if_neg h]
        simp
    rw [hstep]
    simp only [keysOf, List.map_cons, List.mem_cons]
    constructor
    · rintro ((hk | rfl) | hk)
      · exact Or.inl hk
      · exact Or.inr (Or.inl rfl)
      · exact Or.inr (Or.inr hk)
    · rintro (hk | (rfl | hk))
      · exact Or.inl (Or.inl hk)
      · exact Or.inl (Or.inr rfl)
      · exact Or.inr hk

/-- The merge fold keeps key sequences duplicate-free. -/
theorem nodup_keysOf_foldl_addMerged {K : Type} [DecidableEq K]
    (l : List (OrderedTy K)) (acc : List (OrderedTy K))
    (hacc : (keysOf acc).Nodup) :
    (keysOf (l.foldl addMerged acc)).Nodup := by
  induction l generalizing acc with
  | nil => exact hacc
  | cons e es ih =>
    rw [List.foldl_cons]
    apply ih
    rw [keysOf_addMerged]
    by_cases h : e.ty ∈ keysOf acc
    · rwa [if_pos h]
    · rw [if_neg h]
      rw [List.nodup_append]
      exact ⟨hacc, List.nodup_singleton _, by simpa using h⟩

/-- A merged inheritance list mentions each ancestor key exactly once. -/
theorem nodup_keysOf_ilMerge {K : Type} [DecidableEq K] (ls : List (List (OrderedTy K))) :
    (keysOf (ilMerge ls)).Nodup := by
  have hperm : List.Perm (keysOf (ilMerge ls)) (keysOf (collapseAncestors ls.flatten)) :=
    (List.perm_insertionSort ordGE (collapseAncestors ls.flatten)).map OrderedTy.ty
  rw [hperm.nodup_iff]
  exact nodup_keysOf_foldl_addMerged _ [] (by simp [keysOf])

/-- A merged inheritance list mentions exactly the keys of the parents. -/
theorem mem_keysOf_ilMerge {K : Type} [DecidableEq K]
    (ls : List (List (OrderedTy K))) (k : K) :
    k ∈ keysOf (ilMerge ls) ↔ ∃ l ∈ ls, k ∈ keysOf l := by
  have hperm : List.Perm (keysOf (ilMerge ls)) (keysOf (collapseAncestors ls.flatten)) :=
    (List.perm_insertionSort ordGE (collapseAncestors ls.flatten)).map OrderedTy.ty
  rw [hperm.mem_iff]
  unfold collapseAncestors
  rw [mem_keysOf_foldl_addMerged]
  simp only [keysOf, List.map_nil, List.not_mem_nil, false_or, List.mem_map]
  constructor
  · rintro ⟨x, hx, hxty⟩
    rw [List.mem_flatten] at hx
    obtain ⟨l, hl, hxl⟩ := hx
    exact ⟨l, hl, x, hxl, hxty⟩
  · rintro ⟨l, hl, x, hxl, hxty⟩
    exact ⟨x, List.mem_flatten.mpr ⟨l, hl, hxl⟩, hxty⟩

/-- A merged inheritance list is laid out by decreasing inheritance order. -/
theorem sorted_ilMerge {K : Type} [DecidableEq K] (ls : List (List (OrderedTy K))) :
    (ilMerge ls).Sorted ordGE :=
  List.sorted_insertionSort ordGE (collapseAncestors ls.flatten)

/-- Follows the claim wording of C3 (spec §4.2 join rule taken literally):
merge the parents' key lists in declaration order, appending an entry only if
not already present (first occurrence wins). -/
def specMergeKeys {K : Type} [DecidableEq K] (ls : List (List K)) : List K :=
  ls.foldl (fun acc l => l.foldl (fun a k => if k ∈ a then a else a ++ [k]) acc) []

/-- Follows the claim wording of C3: a join entity's ancestor list as the
claim states it - self, then the first-occurrence merge of the parents. -/
def specJoinKeys {K : Type} [DecidableEq K] (self : K) (parents : List (List K)) : List K :=
  self :: specMergeKeys parents

/-- Claim C3 counterexample: for the join entity F (parents B then E), the
first-occurrence merge stated by the claim yields F, B, E, D, A, X, but the
ancestor list pinned by the scenario-5 oracle (recursive scan "FEDBA",
src/tests/visitor.cpp line 227) is F, E, D, B, A, X - the merge reorders B
behind E and D according to inheritance depth. -/
theorem join_first_occurrence_refuted :
    specJoinKeys Ty.F [keysOf ilB, keysOf ilE] ≠ keysOf ilF
      ∧ specJoinKeys Ty.F [keysOf ilB, keysOf ilE] = [.F, .B, .E, .D, .A, .X]
      ∧ keysOf ilF = [.F, .E, .D, .B, .A, .X] := by decide

/-- Claim C3 (amended): for every join entity of parents P1..Pn, the ancestor
list is self followed by the merged parent entries; every declared ancestor
appears exactly once, membership is exactly self plus the union of the
parents' lists, and the merged entries are laid out by decreasing inheritance
order (ties and positions by first occurrence across the parents in
declaration order) rather than by first occurrence alone - with the orders of
the worked hierarchy pinned concretely: D = [D,A,B], E = [E,D,A,B,X],
F = [F,E,D,B,A,X]. -/
theorem join_ancestor_list_amended :
    (∀ (K : Type) [DecidableEq K] (self : K) (parents : List (List (OrderedTy K))),
        self ∉ keysOf (ilMerge parents) →
          (keysOf (ilJoin self parents)).Nodup
            ∧ (∀ k, k ∈ keysOf (ilJoin self parents) ↔ (k = self ∨ ∃ l ∈ parents, k ∈ keysOf l))
            ∧ (ilMerge parents).Sorted ordGE)
      ∧ keysOf ilD = [.D, .A, .B]
      ∧ keysOf ilE = [.E, .D, .A, .B, .X]
      ∧ keysOf ilF = [.F, .E, .D, .B, .A, .X] := by
  refine ⟨?_, by decide, by decide, by decide⟩
  intro K instK self parents hself
  have hkeys : keysOf (ilJoin self parents) = self :: keysOf (ilMerge parents) := by
    simp [ilJoin, ilPush, keysOf]
  refine ⟨?_, ?_, sorted_ilMerge parents⟩
  · rw [hkeys, List.nodup_cons]
    exact ⟨hself, nodup_keysOf_ilMerge parents⟩
  · intro k
    rw [hkeys, List.mem_cons, mem_keysOf_ilMerge]

/-- Witness for the amended C3 at the join entity D of parents A and B. -/
theorem join_ancestor_list_amended_witness :
    (keysOf (ilJoin Ty.D [ilA, ilB])).Nodup
      ∧ (Ty.B ∈ keysOf (ilJoin Ty.D [ilA, ilB]) ↔
          (Ty.B = Ty.D ∨ ∃ l ∈ [ilA, ilB], Ty.B ∈ keysOf l)) :=
  ⟨(join_ancestor_list_amended.1 Ty Ty.D [ilA, ilB] (by decide)).1,
    (join_ancestor_list_amended.1 Ty Ty.D [ilA, ilB] (by decide)).2.1 Ty.B⟩

/-- Claim C6 counterexample: casting the entity A by reference to the
unrelated target B raises IncompatibleVisitor carrying the requested target
type B, not the entity's type A. -/
theorem cast_error_names_target :
    visitorCastRef entA Ty.B = .error (.incompatible Ty.B)
      ∧ entA.selfKey ≠ Ty.B := by decide

/-- Claim C6 (amended): whenever IncompatibleVisitor is raised, plain dispatch
exhausting the ancestor list carries the entity's type, while the
reference-returning cast carries the requested target type (not the
entity's). -/
theorem error_carries_key {K : Type} [DecidableEq K]
    (e : Entity K) (decl : List K) (T : K) (err1 err2 : VisitError K)
    (h1 : acceptPlain e decl = .error err1)
    (h2 : visitorCastRef e T = .error err2) :
    err1 = .incompatible e.selfKey ∧ err2 = .incompatible T := by
  constructor
  · cases hanc : e.ancestors with
    | nil =>
      have hform : acceptPlain e decl = .error (.incompatible e.selfKey) := by
        simp [acceptPlain, hanc, visitPlainEmpty]
      rw [hform] at h1
      injection h1 with h
      exact h.symm
    | cons t rest =>
      have hform : acceptPlain e decl = visitPlain e.selfKey decl t rest := by
        unfold acceptPlain
        rw [hanc]
      rw [hform, visitPlain_eq] at h1
      cases hfind : (t :: rest).find? (hasCapability decl) with
      | some f => rw [hfind] at h1; simp at h1
      | none =>
        rw [hfind] at h1
        simp only [Except.error.injEq] at h1
        exact h1.symm
  · unfold visitorCastRef at h2
    cases hp : visitorCastPtr e T with
    | some a => rw [hp] at h2; simp at h2
    | none =>
      rw [hp] at h2
      simp only [Except.error.injEq] at h2
      exact h2.symm

/-- Witness for the amended C6: dispatching the entity X against the \x7bA,B,C\x7d
visitor raises an error naming X, and reference-casting X to B raises an
error naming B. -/
theorem error_carries_key_witness :
    (VisitError.incompatible Ty.X : VisitError Ty) = .incompatible entX.selfKey
      ∧ (VisitError.incompatible Ty.B : VisitError Ty) = .incompatible Ty.B :=
  error_carries_key entX [Ty.A, Ty.B, Ty.C] Ty.B
    (.incompatible Ty.X) (.incompatible Ty.B) (by decide) (by decide)

/-- Witness for C1 at the join entity D against the \x7bA,B,C\x7d visitor and its
reversal: the first registered ancestor is A either way. -/
theorem plain_dispatch_first_registered_witness :
    acceptPlain entD [Ty.A, Ty.B, Ty.C] = .ok Ty.A
      ∧ acceptPlain entD [Ty.C, Ty.B, Ty.A] = .ok Ty.A :=
  plain_dispatch_first_registered entD [Ty.A, Ty.B, Ty.C] [Ty.C, Ty.B, Ty.A] Ty.A
    (by decide) (by decide)

/-- Witness for C4 at the entity X against visitors handling only A-F. -/
theorem no_capability_dispatch_witness :
    acceptPlain entX [Ty.A, Ty.B, Ty.C] = .error (.incompatible Ty.X)
      ∧ (acceptRecursive entX visABCDEF).2 = [] :=
  no_capability_dispatch entX [Ty.A, Ty.B, Ty.C] visABCDEF (by decide) (by decide)

/-- Witness for C5: on the matching entity A both cast forms yield the same
address. -/
theorem cast_ptr_ref_agree_witness :
    visitorCastRef entA Ty.A = .ok (tyAddr Ty.A) :=
  (cast_ptr_ref_agree entA Ty.A).2 (tyAddr Ty.A) (by decide)

/-- A recursive visitor handling D and B whose D handler signals stop. -/
def visStopAtD : RecVisitor Ty :=
  ⟨[Ty.D, Ty.B], fun k => decide (k ≠ Ty.D)⟩

/-- Witness for C8 at the entity F: the D handler stops the scan, so the B
handler of the later entry B is never invoked; and the cast scan records the
first matching ancestor. -/
theorem recursive_stop_halts_scan_witness :
    acceptRecursive entF visStopAtD = (false, List.filter (vhandles visStopAtD) [Ty.F, Ty.E] ++ [Ty.D])
      ∧ visitorCastPtr entF Ty.D = ((entF.ancestors.find? (fun k => decide (k = Ty.D))).map entF.addr) :=
  have h := recursive_stop_halts_scan entF visStopAtD [Ty.F, Ty.E] [Ty.B, Ty.A, Ty.X] Ty.D
    (by decide) (by decide) (by decide) (by decide)
  ⟨h.1, h.2 Ty.D⟩

/-- Witness for C9 at the entity F scanned by the always-stop visitor: the
returned boolean is false because the invoked F handler signalled stop. -/
theorem recursive_bool_iff_stop_witness :
    (acceptRecursive entF visABCDEFstop).1 = false :=
  (recursive_bool_iff_stop entF visABCDEFstop (by decide)).2.mpr
    ⟨Ty.F, by decide, by decide⟩

/-- Witness for C10 at the entity A: pointer-casting it back to its own type
returns its own address. -/
theorem cast_roundtrip_self_witness :
    visitorCastPtr entA entA.selfKey = some (entA.addr entA.selfKey) :=
  cast_roundtrip_self entA (by decide)
